import Mathlib

/-!
Verification of the admin request-dispatch engine of the `envoy` admin
server (`source/server/http/admin.h`): the handler registry, the
per-request lifecycle state machine, and the Prometheus stats formatter.

The repository ships only the header `source/server/http/admin.h`, which
declares `AdminImpl` (with its private `UrlHandler` record and
`std::list<UrlHandler> handlers_` registry), `AdminFilter`, and
`PrometheusStatsFormatter`; the function bodies live in a `.cc` file that
is not part of the repository. The data model below is embedded from the
header; the operation bodies are modelled from the specification, as
marked on each definition.
-/

/--
Embedded from `AdminImpl::UrlHandler` (admin.h lines 103-109): one
registered admin route. The source's fields are a path string (named with
the source's term for a route path), help text, the handler callback,
a removable flag and a mutates-server-state flag. The handler callback
maps the request's path-and-query and buffered body to a status code and
a response body.
-/
structure UrlHandler where
  path : String
  helpText : String
  handler : String → String → Nat × String
  removable : Bool
  mutatesState : Bool

/--
Modelled from the spec: the body of `HandlerRegistry.lookup` (the search
`AdminImpl::runCallback` performs over `handlers_`) is not under `src/`.
Per spec 4.1, lookup is an exact-string match of the path component.
-/
def lookupHandler (hs : List UrlHandler) (p : String) : Option UrlHandler :=
  hs.find? (fun e => e.path == p)

/--
Modelled from the spec: the body of `AdminImpl::addHandler` (declared at
admin.h lines 56-57) is not under `src/`. Per spec 4.1, `add` fails with
no mutation when the path is already registered and otherwise appends to
the registry (`handlers_`, a `std::list<UrlHandler>`).
-/
def addHandler (hs : List UrlHandler) (h : UrlHandler) : Bool × List UrlHandler :=
  if hs.any (fun e => e.path == h.path) then (false, hs)
  else (true, hs ++ [h])

/--
Modelled from the spec: the body of `AdminImpl::removeHandler` (declared
at admin.h line 58) is not under `src/`. Per spec 4.1, `remove` fails when
the path is absent or the matching route has `removable = false`; on
success the route is erased.
-/
def removeHandler (hs : List UrlHandler) (p : String) : Bool × List UrlHandler :=
  match hs.find? (fun e => e.path == p) with
  | none => (false, hs)
  | some e => if e.removable then (true, hs.eraseP (fun x => x.path == p)) else (false, hs)

/-- A registry mutation: one `addHandler` or `removeHandler` call. -/
inductive RegOp where
  | add (h : UrlHandler)
  | remove (p : String)

/-- Apply one registry mutation, keeping the resulting registry. -/
def applyOp (hs : List UrlHandler) : RegOp → List UrlHandler
  | .add h => (addHandler hs h).2
  | .remove p => (removeHandler hs p).2

/-- Apply a sequence of registry mutations in order. -/
def applyOps (hs : List UrlHandler) (ops : List RegOp) : List UrlHandler :=
  ops.foldl applyOp hs

/-- Ordering of routes by ascending lexicographic path (spec 4.1). -/
def handlerLE (a b : UrlHandler) : Prop := a.path ≤ b.path

instance : DecidableRel handlerLE :=
  fun a b => inferInstanceAs (Decidable (a.path ≤ b.path))

instance : IsTotal UrlHandler handlerLE :=
  ⟨fun a b => le_total a.path b.path⟩

instance : IsTrans UrlHandler handlerLE :=
  ⟨fun _ _ _ h₁ h₂ => le_trans h₁ h₂⟩

/--
Modelled from the spec: the body of `AdminImpl::sortedHandlers` (declared
at admin.h line 141) is not under `src/`. Per spec 4.1, `listSorted`
returns all routes ordered by ascending lexicographic path, computed on
demand from the current registry.
-/
def sortedHandlers (hs : List UrlHandler) : List UrlHandler :=
  List.insertionSort handlerLE hs

/-- The path component of a path-and-query string: everything before the
first question mark (spec 4.2: split the path from its query string). -/
def pathOnly (pathAndQuery : String) : String :=
  String.mk (pathAndQuery.data.takeWhile (fun c => c != '?'))

/--
Modelled from the spec: the 404 help body built by the missing
`AdminImpl::runCallback` body. Per spec 4.2 it lists the available routes
and their help text, delegating to the sorted listing operation.
-/
def routeListing (hs : List UrlHandler) : String :=
  String.join ((sortedHandlers hs).map (fun h => "  " ++ h.path ++ ": " ++ h.helpText ++ "\n"))

/--
Modelled from the spec: the body of `AdminImpl::runCallback` (declared at
admin.h lines 47-48) is not under `src/`. Per spec 4.2, dispatch strips
the query string, looks the path up in the registry, answers 404 with the
sorted route listing when no route matches, answers 405 without invoking
the handler when the route mutates state and the method is not POST, and
otherwise invokes the handler on the path-and-query and buffered body.
The third component of the result records whether the route's handler was
invoked (the handler side effect of the spec's test stub).
-/
def runCallback (hs : List UrlHandler) (method : String) (pathAndQuery : String)
    (body : String) : Nat × String × Bool :=
  match lookupHandler hs (pathOnly pathAndQuery) with
  | none => (404, "invalid path. admin commands are:\n" ++ routeListing hs, false)
  | some h =>
    if h.mutatesState && !(method == "POST") then
      (405, "method not allowed, POST required\n", false)
    else
      let r := h.handler pathAndQuery body
      (r.1, r.2, true)

/-- The lifecycle states of spec 4.2. `Complete` is transient (entering it
immediately dispatches), so the stored states are the three below. -/
inductive LifecycleState where
  | awaitingHeaders
  | buffering
  | dispatched
  deriving DecidableEq

/--
Modelled from the spec: the per-request state of the `AdminFilter`
(admin.h lines 231-256 declare only the callbacks and the
`request_headers_` pointer; the bodies are not under `src/`). Per spec's
RequestContext: method, path-and-query, accumulated body buffer, plus the
lifecycle state, the number of dispatches performed and the response
produced by dispatch (if any).
-/
structure RequestContext where
  state : LifecycleState
  method : String
  pathAndQuery : String
  body : String
  dispatchCount : Nat
  response : Option (Nat × String × Bool)

/-- The context before any event has been delivered. -/
def initialContext : RequestContext :=
  ⟨.awaitingHeaders, "", "", "", 0, none⟩

/--
Modelled from the spec: `AdminFilter::onComplete` (declared at admin.h
line 251) is not under `src/`. Entering `Complete` triggers exactly one
dispatch of the buffered request and the transition to `Dispatched`.
-/
def onComplete (hs : List UrlHandler) (ctx : RequestContext) : RequestContext :=
  { ctx with
    state := .dispatched
    dispatchCount := ctx.dispatchCount + 1
    response := some (runCallback hs ctx.method ctx.pathAndQuery ctx.body) }

/--
Modelled from the spec: `AdminFilter::decodeHeaders` (declared at admin.h
lines 239-240) is not under `src/`. Per spec 4.2: record method and
path-and-query; if end-of-stream arrives with the headers, go straight to
`Complete` (dispatch), otherwise start buffering.
-/
def decodeHeaders (hs : List UrlHandler) (ctx : RequestContext) (method : String)
    (pathAndQuery : String) (endStream : Bool) : RequestContext :=
  let c := { ctx with method := method, pathAndQuery := pathAndQuery,
                      state := LifecycleState.buffering }
  if endStream then onComplete hs c else c

/--
Modelled from the spec: `AdminFilter::decodeData` (declared at admin.h
line 241) is not under `src/`. Per spec 4.2: append the chunk to the
buffered body and dispatch on end-of-stream; after `Dispatched` the event
is an idempotent no-op.
-/
def decodeData (hs : List UrlHandler) (ctx : RequestContext) (chunk : String)
    (endStream : Bool) : RequestContext :=
  match ctx.state with
  | .dispatched => ctx
  | _ =>
    let c := { ctx with body := ctx.body ++ chunk, state := LifecycleState.buffering }
    if endStream then onComplete hs c else c

/--
Modelled from the spec: `AdminFilter::decodeTrailers` (declared at admin.h
line 242) is not under `src/`. Per spec 4.2: trailers always signal
end-of-stream, so they complete (dispatch) the request; after `Dispatched`
the event is an idempotent no-op.
-/
def decodeTrailers (hs : List UrlHandler) (ctx : RequestContext) : RequestContext :=
  match ctx.state with
  | .dispatched => ctx
  | _ => onComplete hs ctx

/-- Deliver a list of non-final body chunks to the filter, in order. -/
def bufferChunks (hs : List UrlHandler) (ctx : RequestContext)
    (chunks : List String) : RequestContext :=
  chunks.foldl (fun c chunk => decodeData hs c chunk false) ctx

/-- The whole lifecycle of a request whose body arrives as `chunks`
followed by trailers: headers (without end-of-stream), then each chunk,
then trailers. -/
def processRequest (hs : List UrlHandler) (method : String) (pathAndQuery : String)
    (chunks : List String) : RequestContext :=
  decodeTrailers hs (bufferChunks hs (decodeHeaders hs initialContext method pathAndQuery false) chunks)

/--
Modelled from the spec: the character-level sanitization used by the
missing body of `PrometheusStatsFormatter::sanitizeName` (declared at
admin.h line 287). Characters in the class A-Z, a-z, 0-9 and underscore
are kept; every other character becomes an underscore.
-/
def sanitizeChar (c : Char) : Char :=
  if c.isAlphanum || c == '_' then c else '_'

/--
Modelled from the spec: the body of `PrometheusStatsFormatter::sanitizeName`
(declared at admin.h line 287) is not under `src/`. Per spec 4.3, every
character outside the class A-Z, a-z, 0-9, underscore is mapped to an
underscore.
-/
def sanitizeName (name : String) : String :=
  String.mk (name.data.map sanitizeChar)

/--
Modelled from the spec: the body of `PrometheusStatsFormatter::metricName`
(declared at admin.h line 281) is not under `src/`. Per spec 4.3, the
canonical name prefixes the sanitized original name with the fixed string
below.
-/
def metricName (extractedName : String) : String :=
  "envoy_" ++ sanitizeName extractedName

/-- Embedded from `Stats::Tag` (an external collaborator read by the
formatter, spec 3): a name/value string pair. -/
structure Tag where
  name : String
  value : String

/-- The spec's MetricSample (spec 3): name, unsigned value, ordered tags. -/
structure MetricSample where
  name : String
  value : Nat
  tags : List Tag

/--
Modelled from the spec: the body of `PrometheusStatsFormatter::formattedTags`
(declared at admin.h line 277) is not under `src/`. Per spec 4.3, tags are
rendered as a comma-separated list of name="value" pairs in the order
supplied.
-/
def formattedTags (tags : List Tag) : String :=
  String.intercalate "," (tags.map (fun t => t.name ++ "=\"" ++ t.value ++ "\""))

/-- The canonical (sanitized, prefixed) name of a sample. -/
def canonicalName (s : MetricSample) : String := metricName s.name

/--
Modelled from the spec: the per-kind emission loop of the missing body of
`PrometheusStatsFormatter::statsAsPrometheus` (declared at admin.h lines
270-272). For each sample, the first time its canonical name is seen a
TYPE line is emitted and the name is recorded; every sample then emits one
sample line. Returns the emitted text and the updated set (kept as an
insertion-ordered duplicate-free list) of canonical names seen.
-/
def promFormat (seen : List String) (kind : String) :
    List MetricSample → String × List String
  | [] => ("", seen)
  | s :: rest =>
    let n := metricName s.name
    let seen₁ := if n ∈ seen then seen else seen ++ [n]
    let typeLine := if n ∈ seen then "" else "# TYPE " ++ n ++ " " ++ kind ++ "\n"
    let line := n ++ "\x7b" ++ formattedTags s.tags ++ "\x7d " ++ toString s.value ++ "\n"
    let r := promFormat seen₁ kind rest
    (typeLine ++ line ++ r.1, r.2)

/--
Modelled from the spec: the body of `PrometheusStatsFormatter::statsAsPrometheus`
(declared at admin.h lines 270-272) is not under `src/`. Per spec 4.3, it
renders all counters then all gauges grouped by canonical name and returns
the count of distinct canonical names emitted.
-/
def statsAsPrometheus (counters gauges : List MetricSample) : String × Nat :=
  let c := promFormat [] "counter" counters
  let g := promFormat c.2 "gauge" gauges
  (c.1 ++ g.1, g.2.length)

/-- One step of canonical-name tracking: record a name unless seen. -/
def familyStep (acc : List String) (n : String) : List String :=
  if n ∈ acc then acc else acc ++ [n]

/-- Canonical-name tracking over a list of names. -/
def namesFold (seen : List String) (ns : List String) : List String :=
  ns.foldl familyStep seen

/-- The position-wise relation of spec 4.3's merging rule: two names merge
exactly when at each position the characters agree or both are collapsed
to underscore by sanitization. -/
def collapsesTogether (a b : String) : Prop :=
  List.Forall₂ (fun c d => c = d ∨ (sanitizeChar c = '_' ∧ sanitizeChar d = '_')) a.data b.data

/-- The concatenation of a list of body chunks, in order. -/
def concatAll : List String → String
  | [] => ""
  | c :: cs => c ++ concatAll cs

/- ------------------------------------------------------------------ -/
/- Theorems.                                                           -/
/- ------------------------------------------------------------------ -/

/-- Helper: delivering one non-final data chunk to a buffering context
appends the chunk to the body and stays in the buffering state. -/
theorem decodeData_buffering (hs : List UrlHandler) (m pq b : String) (n : Nat)
    (r : Option (Nat × String × Bool)) (c : String) :
    decodeData hs ⟨.buffering, m, pq, b, n, r⟩ c false = ⟨.buffering, m, pq, b ++ c, n, r⟩ :=
  rfl

/-- Helper: delivering a list of non-final data chunks to a buffering
context appends their concatenation to the body. -/
theorem bufferChunks_buffering (hs : List UrlHandler) (chunks : List String) :
    ∀ (m pq b : String) (n : Nat) (r : Option (Nat × String × Bool)),
      bufferChunks hs ⟨.buffering, m, pq, b, n, r⟩ chunks =
        ⟨.buffering, m, pq, b ++ concatAll chunks, n, r⟩ := by
  induction chunks with
  | nil => intro m pq b n r; simp [bufferChunks, concatAll]
  | cons c cs ih =>
    intro m pq b n r
    show bufferChunks hs (decodeData hs ⟨.buffering, m, pq, b, n, r⟩ c false) cs = _
    rw [decodeData_buffering, ih, concatAll, String.append_assoc]

/-- Helper: the full lifecycle computed in closed form. -/
theorem processRequest_eq (hs : List UrlHandler) (method pq : String)
    (chunks : List String) :
    processRequest hs method pq chunks =
      ⟨.dispatched, method, pq, concatAll chunks, 1,
        some (runCallback hs method pq (concatAll chunks))⟩ := by
  show decodeTrailers hs (bufferChunks hs (decodeHeaders hs initialContext method pq false) chunks) = _
  rw [show decodeHeaders hs initialContext method pq false =
        ⟨.buffering, method, pq, "", 0, none⟩ from rfl]
  rw [bufferChunks_buffering]
  rw [show ("" ++ concatAll chunks) = concatAll chunks from String.empty_append _]
  rfl

/-- C2: a request whose body arrives in any number of data chunks followed
by trailers dispatches exactly once, the dispatched request carries the
full concatenation of all buffered body chunks, and any data or trailer
event delivered after the `Dispatched` state is an idempotent no-op. -/
theorem chunked_request_dispatches_once (hs : List UrlHandler) (method pq : String)
    (chunks : List String) (chunk : String) (es : Bool) :
    (processRequest hs method pq chunks).dispatchCount = 1 ∧
    (processRequest hs method pq chunks).body = concatAll chunks ∧
    (processRequest hs method pq chunks).response =
      some (runCallback hs method pq (concatAll chunks)) ∧
    decodeData hs (processRequest hs method pq chunks) chunk es =
      processRequest hs method pq chunks ∧
    decodeTrailers hs (processRequest hs method pq chunks) =
      processRequest hs method pq chunks := by
  rw [processRequest_eq]
  exact ⟨rfl, rfl, rfl, rfl, rfl⟩

/-- C1: dispatching a registered route whose `mutatesState` flag is set via
any method other than POST answers 405 and does not invoke the route's
handler (the invocation flag of the result is false, and the result does
not depend on the handler at all). -/
theorem runCallback_mutating_non_post (hs : List UrlHandler) (h : UrlHandler)
    (method pq body : String)
    (hfind : lookupHandler hs (pathOnly pq) = some h)
    (hmut : h.mutatesState = true) (hm : method ≠ "POST") :
    runCallback hs method pq body = (405, "method not allowed, POST required\n", false) := by
  unfold runCallback
  rw [hfind]
  simp [hmut, hm]

/-- Witness for C1 at a concrete mutating route and a GET request. -/
theorem runCallback_mutating_non_post_witness :
    runCallback [⟨"/quitquitquit", "exit the server", fun _ _ => (200, "OK"), false, true⟩]
        "GET" "/quitquitquit" "" =
      (405, "method not allowed, POST required\n", false) :=
  runCallback_mutating_non_post _
    ⟨"/quitquitquit", "exit the server", fun _ _ => (200, "OK"), false, true⟩
    _ _ _ rfl rfl (by decide)

/-- C3: dispatching a path that is not in the registry answers 404 with a
body listing the available routes and their help text as produced by the
sorted listing operation, without invoking any handler; the sorted listing
is ordered by path and enumerates exactly the registered routes. -/
theorem runCallback_unknown_path (hs : List UrlHandler) (method pq body : String)
    (hnone : lookupHandler hs (pathOnly pq) = none) :
    runCallback hs method pq body =
      (404, "invalid path. admin commands are:\n" ++ routeListing hs, false) ∧
    List.Sorted handlerLE (sortedHandlers hs) ∧
    (sortedHandlers hs).Perm hs := by
  refine ⟨?_, List.sorted_insertionSort handlerLE hs, List.perm_insertionSort handlerLE hs⟩
  unfold runCallback
  rw [hnone]

/-- Witness for C3 at a concrete registry and an unregistered path. -/
theorem runCallback_unknown_path_witness :
    runCallback [⟨"/", "admin home page", fun _ _ => (200, "home"), false, false⟩]
        "GET" "/missing" "" =
      (404, "invalid path. admin commands are:\n" ++
        routeListing [⟨"/", "admin home page", fun _ _ => (200, "home"), false, false⟩],
        false) :=
  (runCallback_unknown_path
    [⟨"/", "admin home page", fun _ _ => (200, "home"), false, false⟩]
    "GET" "/missing" "" rfl).1

/-- C6: after every sequence of add and remove operations, the sorted
listing operation returns the routes of the current registry (a
permutation of it, so it reflects the current set) in non-decreasing
lexicographic order of path. -/
theorem listSorted_after_ops (init : List UrlHandler) (ops : List RegOp) :
    List.Sorted handlerLE (sortedHandlers (applyOps init ops)) ∧
    (sortedHandlers (applyOps init ops)).Perm (applyOps init ops) :=
  ⟨List.sorted_insertionSort handlerLE (applyOps init ops),
   List.perm_insertionSort handlerLE (applyOps init ops)⟩

/-- C4: on a registry respecting the at-most-one-route-per-path invariant,
adding a path that is already registered returns false and leaves the
registry unchanged, still holding exactly one route for that path; adding
a path that is not registered returns true and appends the new route. -/
theorem addHandler_unique (hs : List UrlHandler) (h : UrlHandler)
    (hnd : (hs.map (fun e => e.path)).Nodup) :
    ((∃ e ∈ hs, e.path = h.path) →
        addHandler hs h = (false, hs) ∧
        ((hs.map (fun e => e.path)).count h.path = 1)) ∧
    ((∀ e ∈ hs, e.path ≠ h.path) → addHandler hs h = (true, hs ++ [h])) := by
  constructor
  · rintro ⟨e, he, hpe⟩
    have hany : hs.any (fun x => x.path == h.path) = true :=
      List.any_eq_true.mpr ⟨e, he, by simp [hpe]⟩
    refine ⟨by simp [addHandler, hany], ?_⟩
    have hmem : h.path ∈ hs.map (fun e => e.path) := List.mem_map.mpr ⟨e, he, hpe⟩
    have hle := List.nodup_iff_count_le_one.mp hnd h.path
    have hge : 1 ≤ (hs.map (fun e => e.path)).count h.path :=
      List.one_le_count_iff.mpr hmem
    omega
  · intro hall
    have hany : hs.any (fun x => x.path == h.path) = false :=
      List.any_eq_false.mpr (fun x hx => by simp [hall x hx])
    simp [addHandler, hany]

/-- Witness for C4: a duplicate add fails and keeps one route, a fresh add
appends. -/
theorem addHandler_unique_witness :
    (addHandler [⟨"/stats", "print stats", fun _ _ => (200, "s"), true, false⟩]
        ⟨"/stats", "duplicate", fun _ _ => (200, "d"), true, false⟩ =
      (false, [⟨"/stats", "print stats", fun _ _ => (200, "s"), true, false⟩]) ∧
      (([⟨"/stats", "print stats", fun _ _ => (200, "s"), true, false⟩] :
          List UrlHandler).map (fun e => e.path)).count "/stats" = 1) ∧
    addHandler [⟨"/stats", "print stats", fun _ _ => (200, "s"), true, false⟩]
        ⟨"/certs", "print certs", fun _ _ => (200, "c"), true, false⟩ =
      (true, [⟨"/stats", "print stats", fun _ _ => (200, "s"), true, false⟩,
              ⟨"/certs", "print certs", fun _ _ => (200, "c"), true, false⟩]) :=
  ⟨(addHandler_unique
      [⟨"/stats", "print stats", fun _ _ => (200, "s"), true, false⟩]
      ⟨"/stats", "duplicate", fun _ _ => (200, "d"), true, false⟩ (by simp)).1
      ⟨⟨"/stats", "print stats", fun _ _ => (200, "s"), true, false⟩,
        List.mem_singleton.mpr rfl, rfl⟩,
   (addHandler_unique
      [⟨"/stats", "print stats", fun _ _ => (200, "s"), true, false⟩]
      ⟨"/certs", "print certs", fun _ _ => (200, "c"), true, false⟩ (by simp)).2
      (by intro e he; rw [List.mem_singleton] at he; subst he; decide)⟩

/-- Helper: a lookup over a registry with one matching route erased finds
nothing for that path, provided paths are duplicate-free. -/
theorem lookup_eraseP_self (hs : List UrlHandler) (p : String) (h : UrlHandler)
    (hnd : (hs.map (fun e => e.path)).Nodup)
    (hfind : hs.find? (fun e => e.path == p) = some h) :
    lookupHandler (hs.eraseP (fun x => x.path == p)) p = none := by
  have hmem : h ∈ hs := List.mem_of_find?_eq_some hfind
  have hp := List.find?_some hfind
  obtain ⟨a, l₁, l₂, hnl₁, hpa, hsplit, herase⟩ :=
    @List.exists_of_eraseP UrlHandler (fun x => x.path == p) hs h hmem hp
  rw [herase]
  rw [lookupHandler, List.find?_append]
  have h₁ : l₁.find? (fun e => e.path == p) = none :=
    List.find?_eq_none.mpr hnl₁
  rw [h₁, Option.none_or]
  apply List.find?_eq_none.mpr
  intro x hx
  subst hsplit
  have hap : a.path = p := by simpa using hpa
  have : ((l₁ ++ a :: l₂).map (fun e => e.path)).Nodup := hnd
  rw [List.map_append, List.map_cons] at this
  have hnotin : a.path ∉ l₁.map (fun e => e.path) ++ l₂.map (fun e => e.path) := by
    have := List.nodup_middle.mp (by simpa using this)
    exact (List.nodup_cons.mp this).1
  intro hxp
  apply hnotin
  rw [List.mem_append]
  right
  rw [hap]
  exact List.mem_map.mpr ⟨x, hx, by simpa using hxp⟩

/-- Helper: erasing the route at one path does not change lookups of other
paths. -/
theorem lookup_eraseP_other (hs : List UrlHandler) (p q : String) (h : UrlHandler)
    (hfind : hs.find? (fun e => e.path == p) = some h) (hq : q ≠ p) :
    lookupHandler (hs.eraseP (fun x => x.path == p)) q = lookupHandler hs q := by
  have hmem : h ∈ hs := List.mem_of_find?_eq_some hfind
  have hp := List.find?_some hfind
  obtain ⟨a, l₁, l₂, hnl₁, hpa, hsplit, herase⟩ :=
    @List.exists_of_eraseP UrlHandler (fun x => x.path == p) hs h hmem hp
  rw [herase, hsplit]
  rw [lookupHandler, lookupHandler, List.find?_append, List.find?_append]
  have hap : a.path = p := by simpa using hpa
  have : (a :: l₂).find? (fun e => e.path == q) = l₂.find? (fun e => e.path == q) :=
    List.find?_cons_of_neg _ (by simp [hap]; exact fun hc => (hq hc.symm).elim)
  rw [this]

/-- C5: on a registry respecting the at-most-one-route-per-path invariant,
removing an absent path returns false with no mutation; removing a path
whose route is not removable returns false with no mutation, the route
remaining resolvable; removing a removable route succeeds and erases
exactly that route: the path no longer resolves while every other path
resolves as before. -/
theorem removeHandler_rules (hs : List UrlHandler) (p : String)
    (hnd : (hs.map (fun e => e.path)).Nodup) :
    (lookupHandler hs p = none → removeHandler hs p = (false, hs)) ∧
    (∀ h, lookupHandler hs p = some h → h.removable = false →
        removeHandler hs p = (false, hs) ∧
        lookupHandler (removeHandler hs p).2 p = some h) ∧
    (∀ h, lookupHandler hs p = some h → h.removable = true →
        (removeHandler hs p).1 = true ∧
        lookupHandler (removeHandler hs p).2 p = none ∧
        ∀ q, q ≠ p → lookupHandler (removeHandler hs p).2 q = lookupHandler hs q) := by
  refine ⟨?_, ?_, ?_⟩
  · intro hnone
    unfold removeHandler
    rw [show hs.find? (fun e => e.path == p) = none from hnone]
  · intro h hfind hrem
    have hr : removeHandler hs p = (false, hs) := by
      unfold removeHandler
      rw [show hs.find? (fun e => e.path == p) = some h from hfind]
      simp [hrem]
    exact ⟨hr, by rw [hr]; exact hfind⟩
  · intro h hfind hrem
    have hr : removeHandler hs p = (true, hs.eraseP (fun x => x.path == p)) := by
      unfold removeHandler
      rw [show hs.find? (fun e => e.path == p) = some h from hfind]
      simp [hrem]
    rw [hr]
    exact ⟨rfl, lookup_eraseP_self hs p h hnd hfind,
      fun q hq => lookup_eraseP_other hs p q h hfind hq⟩

/-- Witness for C5: removing a non-removable route fails and the route
stays resolvable; removing a removable route succeeds, after which its
path no longer resolves while another path still does. -/
theorem removeHandler_rules_witness :
    (removeHandler [⟨"/", "home", fun _ _ => (200, "h"), false, false⟩,
                    ⟨"/extra", "extra", fun _ _ => (200, "e"), true, false⟩] "/" =
      (false, [⟨"/", "home", fun _ _ => (200, "h"), false, false⟩,
               ⟨"/extra", "extra", fun _ _ => (200, "e"), true, false⟩]) ∧
      lookupHandler (removeHandler [⟨"/", "home", fun _ _ => (200, "h"), false, false⟩,
                    ⟨"/extra", "extra", fun _ _ => (200, "e"), true, false⟩] "/").2 "/" =
        some ⟨"/", "home", fun _ _ => (200, "h"), false, false⟩) ∧
    ((removeHandler [⟨"/", "home", fun _ _ => (200, "h"), false, false⟩,
                     ⟨"/extra", "extra", fun _ _ => (200, "e"), true, false⟩] "/extra").1 = true ∧
      lookupHandler (removeHandler [⟨"/", "home", fun _ _ => (200, "h"), false, false⟩,
                     ⟨"/extra", "extra", fun _ _ => (200, "e"), true, false⟩] "/extra").2 "/extra" =
        none) :=
  ⟨(removeHandler_rules [⟨"/", "home", fun _ _ => (200, "h"), false, false⟩,
      ⟨"/extra", "extra", fun _ _ => (200, "e"), true, false⟩] "/" (by simp)).2.1
      ⟨"/", "home", fun _ _ => (200, "h"), false, false⟩ rfl rfl,
   ((removeHandler_rules [⟨"/", "home", fun _ _ => (200, "h"), false, false⟩,
      ⟨"/extra", "extra", fun _ _ => (200, "e"), true, false⟩] "/extra" (by simp)).2.2
      ⟨"/extra", "extra", fun _ _ => (200, "e"), true, false⟩ rfl rfl).imp
      id (fun hx => hx.1)⟩

/-- Helper: two characters have the same sanitized image exactly when they
are equal or both sanitize to underscore. -/
theorem sanitizeChar_eq_iff (c d : Char) :
    sanitizeChar c = sanitizeChar d ↔
      (c = d ∨ (sanitizeChar c = '_' ∧ sanitizeChar d = '_')) := by
  unfold sanitizeChar
  by_cases hc : (c.isAlphanum || c == '_') = true <;>
    by_cases hd : (d.isAlphanum || d == '_') = true
  · rw [if_pos hc, if_pos hd]
    exact ⟨Or.inl, fun h => h.elim id (fun hp => hp.1.trans hp.2.symm)⟩
  · rw [if_pos hc, if_neg hd]
    constructor
    · intro h
      exact Or.inr ⟨h, rfl⟩
    · rintro (h | ⟨h1, _⟩)
      · subst h
        exact absurd hc hd
      · exact h1
  · rw [if_neg hc, if_pos hd]
    constructor
    · intro h
      exact Or.inr ⟨rfl, h.symm⟩
    · rintro (h | ⟨_, h2⟩)
      · subst h
        exact absurd hd hc
      · exact h2.symm
  · rw [if_neg hc, if_neg hd]
    exact ⟨fun _ => Or.inr ⟨rfl, rfl⟩, fun _ => rfl⟩

/-- Helper: two lists have equal images under a map exactly when they are
position-wise related by equal images. -/
theorem map_eq_iff_forall₂ {α β : Type} (f : α → β) :
    ∀ xs ys : List α, xs.map f = ys.map f ↔ List.Forall₂ (fun a b => f a = f b) xs ys
  | [], [] => by simp
  | [], _ :: _ => by simp
  | _ :: _, [] => by simp
  | x :: xs, y :: ys => by
    simp only [List.map_cons, List.cons.injEq, List.forall₂_cons]
    exact and_congr Iff.rfl (map_eq_iff_forall₂ f xs ys)

/-- Helper: the character data of a built string. -/
theorem data_mk (l : List Char) : (String.mk l).data = l := rfl

/-- Helper: canonical names agree exactly when the sanitized character
sequences agree. -/
theorem metricName_eq_iff (a b : String) :
    metricName a = metricName b ↔ a.data.map sanitizeChar = b.data.map sanitizeChar := by
  unfold metricName sanitizeName
  rw [String.ext_iff]
  simp only [String.data_append, data_mk]
  exact ⟨fun h => List.append_cancel_left h, fun h => by rw [h]⟩

/-- C7: the canonical Prometheus name is the fixed prefix string followed
by the character-wise sanitization of the name, and two names share a
canonical name (one metric family) exactly when they agree position-wise
up to characters that sanitization collapses to underscore; names
differing elsewhere (in particular in a kept alphanumeric character) stay
distinct. -/
theorem metricName_grouping (s a b : String) :
    metricName s = "envoy_" ++ String.mk (s.data.map sanitizeChar) ∧
    (metricName a = metricName b ↔ collapsesTogether a b) := by
  refine ⟨rfl, ?_⟩
  rw [metricName_eq_iff, map_eq_iff_forall₂]
  unfold collapsesTogether
  constructor
  · intro h
    exact h.imp (fun a b hab => (sanitizeChar_eq_iff a b).mp hab)
  · intro h
    exact h.imp (fun a b hab => (sanitizeChar_eq_iff a b).mpr hab)

/-- Helper: character sanitization is idempotent. -/
theorem sanitizeChar_idem (c : Char) : sanitizeChar (sanitizeChar c) = sanitizeChar c := by
  by_cases h : (c.isAlphanum || c == '_') = true
  · have hc : sanitizeChar c = c := if_pos h
    rw [hc]
    exact hc
  · have hc : sanitizeChar c = '_' := if_neg h
    rw [hc]
    decide

/-- C10: name sanitization is idempotent, so building a canonical name
from an already-sanitized name changes no character beyond adding the
fixed metric-name prefix string. -/
theorem sanitizeName_idem (s : String) :
    sanitizeName (sanitizeName s) = sanitizeName s ∧
    metricName (sanitizeName s) = "envoy_" ++ sanitizeName s := by
  have h1 : sanitizeName (sanitizeName s) = sanitizeName s := by
    unfold sanitizeName
    rw [data_mk, List.map_map]
    rw [show sanitizeChar ∘ sanitizeChar = sanitizeChar from funext sanitizeChar_idem]
  refine ⟨h1, ?_⟩
  unfold metricName
  rw [h1]

/-- Helper: the set of canonical names tracked by the formatter loop is
the names-fold of the samples' canonical names. -/
theorem promFormat_seen (kind : String) :
    ∀ (ss : List MetricSample) (seen : List String),
      (promFormat seen kind ss).2 = namesFold seen (ss.map canonicalName)
  | [], _ => rfl
  | s :: rest, seen => by
    show (promFormat (if metricName s.name ∈ seen then seen
        else seen ++ [metricName s.name]) kind rest).2 = _
    rw [promFormat_seen kind rest]
    rfl

/-- Helper: membership in a names-fold. -/
theorem mem_namesFold (x : String) :
    ∀ (ns seen : List String), x ∈ namesFold seen ns ↔ x ∈ seen ∨ x ∈ ns
  | [], seen => by simp [namesFold]
  | n :: ns, seen => by
    show x ∈ namesFold (familyStep seen n) ns ↔ _
    rw [mem_namesFold x ns (familyStep seen n)]
    unfold familyStep
    by_cases h : n ∈ seen
    · rw [if_pos h]
      simp only [List.mem_cons]
      constructor
      · rintro (hx | hx)
        · exact Or.inl hx
        · exact Or.inr (Or.inr hx)
      · rintro (hx | hx | hx)
        · exact Or.inl hx
        · subst hx
          exact Or.inl h
        · exact Or.inr hx
    · rw [if_neg h]
      simp only [List.mem_append, List.mem_cons, List.not_mem_nil, or_false]
      constructor
      · rintro ((hx | hx) | hx)
        · exact Or.inl hx
        · exact Or.inr (Or.inl hx)
        · exact Or.inr (Or.inr hx)
      · rintro (hx | hx | hx)
        · exact Or.inl (Or.inl hx)
        · exact Or.inl (Or.inr hx)
        · exact Or.inr hx

/-- Helper: a names-fold of a duplicate-free accumulator is
duplicate-free. -/
theorem nodup_namesFold :
    ∀ (ns seen : List String), seen.Nodup → (namesFold seen ns).Nodup
  | [], _, h => h
  | n :: ns, seen, h => by
    show (namesFold (familyStep seen n) ns).Nodup
    apply nodup_namesFold ns
    unfold familyStep
    by_cases hn : n ∈ seen
    · rwa [if_pos hn]
    · rw [if_neg hn]
      rw [List.nodup_append]
      refine ⟨h, List.nodup_singleton n, fun a ha hb => ?_⟩
      rw [List.mem_singleton] at hb
      subst hb
      exact hn ha

/-- Helper: the length of a names-fold from an empty accumulator is the
number of distinct names. -/
theorem namesFold_card (ns : List String) :
    (namesFold [] ns).length = ns.toFinset.card := by
  have hnd : (namesFold [] ns).Nodup := nodup_namesFold ns [] List.nodup_nil
  have hset : (namesFold [] ns).toFinset = ns.toFinset := by
    ext x
    simp only [List.mem_toFinset]
    rw [mem_namesFold]
    simp
  rw [← List.toFinset_card_of_nodup hnd, hset]

/-- C8: the value returned by the Prometheus formatter is the number of
distinct canonical metric names (metric families) over all counters and
gauges, not the number of samples, and it is zero exactly when the input
is empty. -/
theorem statsAsPrometheus_family_count (cs gs : List MetricSample) :
    (statsAsPrometheus cs gs).2 = ((cs ++ gs).map canonicalName).toFinset.card ∧
    ((statsAsPrometheus cs gs).2 = 0 ↔ cs = [] ∧ gs = []) := by
  have h1 : (statsAsPrometheus cs gs).2 =
      (namesFold [] ((cs ++ gs).map canonicalName)).length := by
    have e1 : (statsAsPrometheus cs gs).2 =
        (namesFold (namesFold [] (cs.map canonicalName)) (gs.map canonicalName)).length := by
      show ((promFormat (promFormat [] "counter" cs).2 "gauge" gs).2).length = _
      rw [promFormat_seen "gauge" gs, promFormat_seen "counter" cs]
    rw [e1, List.map_append]
    simp only [namesFold, List.foldl_append]
  have h2 : (statsAsPrometheus cs gs).2 = ((cs ++ gs).map canonicalName).toFinset.card :=
    h1.trans (namesFold_card _)
  refine ⟨h2, ?_⟩
  rw [h2]
  rw [Finset.card_eq_zero, List.toFinset_eq_empty_iff, List.map_eq_nil_iff, List.append_eq_nil]
